import Mathlib

set_option maxHeartbeats 1000000

/-!
Verification development for the point-of-sale checkout / inventory-commit
engine.  Definitions are shallow embeddings of the TypeScript source
(`SalesPage.tsx`, `providers.tsx` notification provider, inventory page):
quantities and money are modelled as rationals, JS strings as `List Char`,
the remote tables as in-memory lists, and the asynchronous persistence
calls as explicit success flags.
-/

/-- Unit kind of an inventory item, source `unit_type`:
`'quantity'` (pieces), `'weight'` (kg/g), `'volume'` (L/ml). -/
inductive UnitType where
  | quantity
  | weight
  | volume
deriving DecidableEq, Repr

/-- Seating mode, source `dine_in_takeout`. -/
inductive DineMode where
  | dine_in
  | takeout
deriving DecidableEq, Repr

/-- Raw-material row of the `products` table: quantity is kept in storage
units (kg / L / pieces), `cost` is the stored per-unit cost. -/
structure InventoryItem where
  id : ℕ
  qty : ℚ
  cost : ℚ
  unit_type : UnitType
deriving DecidableEq, Repr

/-- Row of `product_ingredients`: recipe line of a finished product,
`qty` in display units (g / ml / pieces). -/
structure ProductIngredient where
  product_id : ℕ
  item_id : ℕ
  qty : ℚ
deriving DecidableEq, Repr

/-- Row of `finished_products` (fields the checkout engine reads). -/
structure FinishedProduct where
  id : ℕ
  selling_price : ℚ
deriving DecidableEq, Repr

/-- Cart line: a finished product with an integer quantity. -/
structure CartItem where
  product : FinishedProduct
  quantity : ℕ
deriving DecidableEq, Repr

/-- Row of the `sales` table.  Payment method and customer type are ids,
`none` standing for the empty-string sentinel of the source. -/
structure Sale where
  id : ℕ
  transaction_id : ℕ
  transaction_number : List Char
  product_id : ℕ
  qty : ℚ
  cost : ℚ
  selling_price : ℚ
  total : ℚ
  payment_method : Option ℕ
  customer_type : Option ℕ
  dine_in_takeout : Option DineMode
  customer_payment : ℚ
  cancelled : Bool
  cancelled_at : Option ℚ
deriving DecidableEq, Repr

/-- Pending-cancellation entry of the notification provider. -/
structure RecentSale where
  sale : Sale
  expiresAt : ℚ
deriving DecidableEq, Repr

/-- Persisted state: inventory rows, sale rows, and the id the store will
assign to the next inserted sale row. -/
structure DB where
  items : List InventoryItem
  sales : List Sale
  nextSaleId : ℕ
deriving DecidableEq, Repr

/-- Stock of an item converted from storage units to the ingredient
display unit (`getInventoryInIngredientUnit`, SalesPage). -/
def getInventoryInIngredientUnit (item : InventoryItem) : ℚ :=
  match item.unit_type with
  | .weight => item.qty * 1000
  | .volume => item.qty * 1000
  | .quantity => item.qty

/-- Stock of an item in display units (`getDisplayQuantity`, inventory
page); textually the same computation as `getInventoryInIngredientUnit`. -/
def getDisplayQuantity (item : InventoryItem) : ℚ :=
  match item.unit_type with
  | .weight => item.qty * 1000
  | .volume => item.qty * 1000
  | .quantity => item.qty

/-- Display-unit quantity converted back to storage units
(`getStorageQuantity`, inventory page; the same division is inlined in the
checkout deduction loop). -/
def getStorageQuantity (displayQty : ℚ) (unitType : UnitType) : ℚ :=
  match unitType with
  | .weight => displayQty / 1000
  | .volume => displayQty / 1000
  | .quantity => displayQty

/-- Recipe lines of a product — the source groups `product_ingredients`
rows by `product_id`, preserving order. -/
def ingredientsFor (pIngs : List ProductIngredient) (pid : ℕ) :
    List ProductIngredient :=
  pIngs.filter (fun ing => ing.product_id == pid)

/-- Availability check (`isProductOutOfStock`, SalesPage): a product with
no recipe lines is out of stock; otherwise it is out of stock when some
line's item is missing or its display-unit stock is below the line
quantity. -/
def isProductOutOfStock (pIngs : List ProductIngredient)
    (items : List InventoryItem) (p : FinishedProduct) : Bool :=
  let ings := ingredientsFor pIngs p.id
  if ings.isEmpty then true
  else
    ings.any (fun ing =>
      match items.find? (fun i => i.id == ing.item_id) with
      | none => true
      | some item => decide (getInventoryInIngredientUnit item < ing.qty))

/-- Derived product cost (`calculateProductCost`, SalesPage): sum over
recipe lines of `item.cost * ing.qty`, counting 0 for a missing item.
Note the source multiplies the stored cost by the display-unit line
quantity directly, with no unit conversion. -/
def calculateProductCost (pIngs : List ProductIngredient)
    (items : List InventoryItem) (p : FinishedProduct) : ℚ :=
  (ingredientsFor pIngs p.id).foldl
    (fun total ing =>
      total +
        match items.find? (fun i => i.id == ing.item_id) with
        | some item => item.cost * ing.qty
        | none => 0)
    0

/-- Cart total (`cartTotal`, SalesPage). -/
def cartTotal (cart : List CartItem) : ℚ :=
  cart.foldl (fun s it => s + it.quantity * it.product.selling_price) 0

/-- Effective customer payment: `parseFloat(customerPayment) || 0`, where
`none` models the empty or unparsable input. -/
def paymentAmount (pay : Option ℚ) : ℚ :=
  pay.getD 0

/-- Checkout guard (`canCheckout`, SalesPage): non-empty cart, a payment
method, a customer type and a seating mode selected, and payment at least
the cart total. -/
def canCheckout (cart : List CartItem) (pm ct : Option ℕ)
    (dit : Option DineMode) (pay : Option ℚ) : Bool :=
  !cart.isEmpty && pm.isSome && ct.isSome && dit.isSome &&
    decide (cartTotal cart ≤ paymentAmount pay)

/-- Value of a big-endian list of decimal digit characters, the way
`parseInt` accumulates it. -/
def digitsVal (l : List Char) : ℕ :=
  l.foldl (fun a c => a * 10 + (c.toNat - 48)) 0

/-- Lists of decimal digit characters (code points 48-57). -/
def IsDigits (l : List Char) : Prop :=
  ∀ c ∈ l, 48 ≤ c.toNat ∧ c.toNat ≤ 57

/-- Decimal rendering of a natural, most significant digit first; the
first argument is recursion fuel, sufficient whenever it is at least the
number itself. -/
def decDigitsCore : ℕ → ℕ → List Char
  | 0, _ => []
  | fuel + 1, n =>
    if n = 0 then []
    else decDigitsCore fuel (n / 10) ++ [Nat.digitChar (n % 10)]

/-- JS `Number.prototype.toString()` for naturals: decimal digits, with
`"0"` for zero. -/
def jsNatToString (n : ℕ) : List Char :=
  if n = 0 then ['0'] else decDigitsCore n n

/-- JS `String.prototype.padStart(n, c)`. -/
def padStart (l : List Char) (n : ℕ) (c : Char) : List Char :=
  List.replicate (n - l.length) c ++ l

/-- `nextNum.toString().padStart(5, '0')` of the transaction numberer. -/
def pad5 (n : ℕ) : List Char :=
  padStart (jsNatToString n) 5 '0'

/-- JS `parseInt` restricted to an optional run of leading decimal
digits: `none` models `NaN`. -/
def parseIntDec (l : List Char) : Option ℕ :=
  let d := l.takeWhile (fun c => c.isDigit)
  if d.isEmpty then none else some (digitsVal d)

/-- JS `String.prototype.split` with a single-character separator. -/
def jsSplit (sep : Char) : List Char → List (List Char)
  | [] => [[]]
  | c :: cs =>
    if c = sep then [] :: jsSplit sep cs
    else
      match jsSplit sep cs with
      | [] => [[c]]
      | h :: t => (c :: h) :: t

/-- The `order('transaction_number', descending).limit(1)` read: the
lexicographically greatest string of the list, if any. -/
def maxString? (l : List (List Char)) : Option (List Char) :=
  l.foldl
    (fun acc t =>
      match acc with
      | none => some t
      | some m => if m < t then some t else some m)
    none

/-- Transaction numberer (`generateTransactionNumber`, SalesPage): filter
the persisted numbers by the `period-` prefix, take the greatest, parse
its third dash-separated segment, add one and zero-pad to five digits;
sequence 1 when nothing matches. -/
def generateTransactionNumber (existing : List (List Char))
    (period : List Char) : List Char :=
  let matching := existing.filter (fun t => (period ++ ['-']).isPrefixOf t)
  match maxString? matching with
  | none => period ++ '-' :: pad5 1
  | some t =>
    let lastNum := (parseIntDec ((jsSplit '-' t).getD 2 [])).getD 0
    period ++ '-' :: pad5 (lastNum + 1)

/-- One step of the `ingredientDeductions` record construction: add `v`
to the entry at key `k`, appending a new entry when the key is absent. -/
def addDeduction (m : List (ℕ × ℚ)) (k : ℕ) (v : ℚ) : List (ℕ × ℚ) :=
  if m.any (fun p => p.1 == k) then
    m.map (fun p => if p.1 == k then (p.1, p.2 + v) else p)
  else m ++ [(k, v)]

/-- Value stored in the deductions record at key `k`, 0 when absent. -/
def lookupD (m : List (ℕ × ℚ)) (k : ℕ) : ℚ :=
  ((m.find? (fun p => p.1 == k)).map Prod.snd).getD 0

/-- Display-unit deduction record of `handleCheckout`: for each cart line
and each of its recipe lines, `ing.qty * item.quantity` is accumulated
under the ingredient's item id. -/
def ingredientDeductions (cart : List CartItem)
    (pIngs : List ProductIngredient) : List (ℕ × ℚ) :=
  cart.foldl
    (fun m it =>
      (ingredientsFor pIngs it.product.id).foldl
        (fun m ing => addDeduction m ing.item_id (ing.qty * it.quantity))
        m)
    []

/-- One iteration of the deduction loop of `handleCheckout`: look the item
up, convert the display-unit deduction to storage units using the item's
unit kind, and write `max 0 (qty - deduction)`; a missing item is
skipped. -/
def applyDeduction (items : List InventoryItem) (k : ℕ) (v : ℚ) :
    List InventoryItem :=
  match items.find? (fun i => i.id == k) with
  | none => items
  | some item =>
    let ds := getStorageQuantity v item.unit_type
    let newQty := max 0 (item.qty - ds)
    items.map (fun i => if i.id == k then { i with qty := newQty } else i)

/-- The whole deduction loop. -/
def applyAll (items : List InventoryItem) (l : List (ℕ × ℚ)) :
    List InventoryItem :=
  l.foldl (fun its kv => applyDeduction its kv.1 kv.2) items

/-- Per-row effect of the deduction loop, given the whole deduction
record: a row whose id appears in the record has the converted deduction
applied once, clamped at zero; other rows are untouched. -/
def dedTransform (l : List (ℕ × ℚ)) (i : InventoryItem) : InventoryItem :=
  match l.find? (fun kv => kv.1 == i.id) with
  | none => i
  | some kv =>
    { i with qty := max 0 (i.qty - getStorageQuantity kv.2 i.unit_type) }

/-- Sale rows built for one checkout (`saleRecords`, SalesPage), with ids
assigned sequentially by the store. -/
def mkSaleRecords (pIngs : List ProductIngredient)
    (items : List InventoryItem) (txid : ℕ) (txnum : List Char)
    (pm ct : Option ℕ) (dit : Option DineMode) (payEff : ℚ) :
    ℕ → List CartItem → List Sale
  | _, [] => []
  | n, it :: rest =>
    { id := n
      transaction_id := txid
      transaction_number := txnum
      product_id := it.product.id
      qty := it.quantity
      cost := calculateProductCost pIngs items it.product
      selling_price := it.product.selling_price
      total := it.quantity * it.product.selling_price
      payment_method := pm
      customer_type := ct
      dine_in_takeout := dit
      customer_payment := payEff
      cancelled := false
      cancelled_at := none } ::
      mkSaleRecords pIngs items txid txnum pm ct dit payEff (n + 1) rest

/-- Checkout commit (`handleCheckout`, SalesPage).  Rejects when the
guard fails; otherwise writes the sale rows of the transaction first
(`insertOk` models the batched insert outcome — on failure everything
aborts with the state untouched), then applies the aggregated inventory
deductions, and returns the first inserted row for registration with the
cancellation window. -/
def handleCheckout (db : DB) (pIngs : List ProductIngredient)
    (cart : List CartItem) (pm ct : Option ℕ) (dit : Option DineMode)
    (pay : Option ℚ) (txid : ℕ) (period : List Char) (insertOk : Bool) :
    DB × Option Sale :=
  if canCheckout cart pm ct dit pay = false then (db, none)
  else
    let txnum :=
      generateTransactionNumber (db.sales.map (fun s => s.transaction_number))
        period
    let records :=
      mkSaleRecords pIngs db.items txid txnum pm ct dit (paymentAmount pay)
        db.nextSaleId cart
    if insertOk = false then (db, none)
    else
      let items2 := applyAll db.items (ingredientDeductions cart pIngs)
      ({ items := items2
         sales := db.sales ++ records
         nextSaleId := db.nextSaleId + cart.length },
       records.head?)

/-- Registration with the cancellation window (`addRecentSale`,
notification provider): a single slot, replacing any previous entry, with
expiry 30 s after now. -/
def addRecentSale (_recent : List RecentSale) (sale : Sale) (now : ℚ) :
    List RecentSale :=
  [{ sale := sale, expiresAt := now + 30000 }]

/-- The `sales` update of `cancelSale`: set the cancellation flag and
timestamp on the row(s) with the given id. -/
def markCancelled (sales : List Sale) (saleId : ℕ) (now : ℚ) : List Sale :=
  sales.map (fun s =>
    if s.id == saleId then { s with cancelled := true, cancelled_at := some now }
    else s)

/-- The inventory restoration of `cancelSale`: add `q` to the `products`
row whose id equals the sale's `product_id` (shape of the
`restore_inventory` remote procedure and of the in-source fallback
update). -/
def restoreInventory (items : List InventoryItem) (pid : ℕ) (q : ℚ) :
    List InventoryItem :=
  items.map (fun i => if i.id == pid then { i with qty := i.qty + q } else i)

/-- Cancellation (`cancelSale`, notification provider): fails with no
persisted mutation when no pending entry matches the id or the window has
elapsed (the stale entry is dropped); otherwise marks the registered sale
row cancelled, restores inventory through `restoreInventory`, clears the
entry and reports success. -/
def cancelSale (db : DB) (recent : List RecentSale) (now : ℚ)
    (saleId : ℕ) : DB × List RecentSale × Bool :=
  match recent.find? (fun rs => rs.sale.id == saleId) with
  | none => (db, recent, false)
  | some rs =>
    if rs.expiresAt < now then
      (db, recent.filter (fun r => r.sale.id != saleId), false)
    else
      ({ db with
          sales := markCancelled db.sales saleId now
          items := restoreInventory db.items rs.sale.product_id rs.sale.qty },
       recent.filter (fun r => r.sale.id != saleId), true)

/-- Combined state: persisted tables plus the in-memory pending
cancellation slot. -/
structure World where
  db : DB
  recent : List RecentSale
deriving DecidableEq, Repr

/-- World after a checkout attempt followed by the registration of the
returned representative sale row. -/
def checkoutWorld (w : World) (pIngs : List ProductIngredient)
    (cart : List CartItem) (pm ct : Option ℕ) (dit : Option DineMode)
    (pay : Option ℚ) (txid : ℕ) (period : List Char) (insertOk : Bool)
    (now : ℚ) : World :=
  let r := handleCheckout w.db pIngs cart pm ct dit pay txid period insertOk
  { db := r.1
    recent :=
      match r.2 with
      | some s => addRecentSale w.recent s now
      | none => w.recent }

/-- World after a cancellation attempt. -/
def cancelWorld (w : World) (saleId : ℕ) (now : ℚ) : World :=
  let r := cancelSale w.db w.recent now saleId
  { db := r.1, recent := r.2.1 }

/-- World after the 30 s timer of a registration fires. -/
def expireWorld (w : World) (saleId : ℕ) : World :=
  { w with recent := w.recent.filter (fun rs => rs.sale.id != saleId) }

/-- Operational steps of the checkout / cancellation engine. -/
inductive Step : World → World → Prop
  | checkout (w pIngs cart pm ct dit pay txid period insertOk now) :
      Step w (checkoutWorld w pIngs cart pm ct dit pay txid period insertOk now)
  | cancel (w saleId now) : Step w (cancelWorld w saleId now)
  | expire (w saleId) : Step w (expireWorld w saleId)

/-- State invariant: all stock quantities and all registered sale
quantities are non-negative. -/
def WorldInv (w : World) : Prop :=
  (∀ i ∈ w.db.items, 0 ≤ i.qty) ∧ ∀ rs ∈ w.recent, 0 ≤ rs.sale.qty

/-- Reference formula following the specification's words for the derived
product cost: each recipe-line quantity is converted to storage units
before being multiplied by the item's stored cost.  Kept for comparison
with `calculateProductCost`, the definition taken from the source. -/
def costPerSpec (pIngs : List ProductIngredient)
    (items : List InventoryItem) (p : FinishedProduct) : ℚ :=
  ((ingredientsFor pIngs p.id).map (fun ing =>
    match items.find? (fun i => i.id == ing.item_id) with
    | some item => item.cost * getStorageQuantity ing.qty item.unit_type
    | none => 0)).sum

/-- Total display-unit requirement of an inventory item across the whole
cart: the sum over cart lines and over the recipe lines referencing the
item of `line.qty * cartLine.quantity`. -/
def totalDisplayReq (cart : List CartItem)
    (pIngs : List ProductIngredient) (k : ℕ) : ℚ :=
  (cart.map (fun it =>
    (((ingredientsFor pIngs it.product.id).filter
        (fun ing => ing.item_id == k)).map
      (fun ing => ing.qty * (it.quantity : ℚ))).sum)).sum

/-- Concrete inventory for the C1 check: a weight item stored at cost 50
per unit with 1 kg of stock. -/
def itemsC1 : List InventoryItem := [⟨1, 1, 50, .weight⟩]

/-- Concrete recipe for the C1 check: one 200 g line of item 1. -/
def pIngsC1 : List ProductIngredient := [⟨101, 1, 200⟩]

/-- Concrete product for the C1 check. -/
def prodC1 : FinishedProduct := ⟨101, 250⟩

/-- Concrete period string `24-05`. -/
def periodC2 : List Char := ['2', '4', '-', '0', '5']

/-- Concrete store for the C2 scenario: one piece-kind ingredient with 10
in stock. -/
def dbC2 : DB := ⟨[⟨1, 10, 2, .quantity⟩], [], 0⟩

/-- Concrete recipes for the C2 scenario: products 101 and 102 both use
ingredient 1 (2 resp. 3 pieces). -/
def pIngsC2 : List ProductIngredient := [⟨101, 1, 2⟩, ⟨102, 1, 3⟩]

/-- Concrete two-product cart for the C2 scenario. -/
def cartC2 : List CartItem := [⟨⟨101, 5⟩, 1⟩, ⟨⟨102, 7⟩, 1⟩]

/-- World after checking the C2 cart out at time 0 (both sale rows
committed, ingredient 1 deducted to 5, first row registered for
cancellation). -/
def w1C2 : World :=
  checkoutWorld ⟨dbC2, []⟩ pIngsC2 cartC2 (some 1) (some 2) (some .dine_in)
    (some 100) 999 periodC2 true 0

/-- World after cancelling the registered sale row at time 10, well
inside the 30 s window. -/
def w2C2 : World := cancelWorld w1C2 0 10

/-- Registered sale row for the C2 amended-claim witness. -/
def saleW2 : Sale :=
  { id := 5, transaction_id := 9, transaction_number := [], product_id := 77
    qty := 3, cost := 0, selling_price := 0, total := 0
    payment_method := none, customer_type := none, dine_in_takeout := none
    customer_payment := 0, cancelled := false, cancelled_at := none }

/-- Second sale row of the same transaction for the C2 amended-claim
witness. -/
def saleW2b : Sale :=
  { id := 6, transaction_id := 9, transaction_number := [], product_id := 88
    qty := 1, cost := 0, selling_price := 0, total := 0
    payment_method := none, customer_type := none, dine_in_takeout := none
    customer_payment := 0, cancelled := false, cancelled_at := none }

/-- Concrete store for the C2 amended-claim witness. -/
def dbW2 : DB :=
  ⟨[⟨77, 4, 1, .quantity⟩, ⟨88, 6, 1, .quantity⟩], [saleW2, saleW2b], 7⟩

/-- Pending-cancellation slot for the C2 amended-claim witness. -/
def recentW2 : List RecentSale := [⟨saleW2, 30000⟩]

/-- Concrete store for the C3 witness: two ingredients. -/
def dbC3 : DB := ⟨[⟨1, 10, 2, .quantity⟩, ⟨2, 8, 1, .weight⟩], [], 0⟩

/-- Concrete recipes for the C3 witness: item 1 is shared by both
products. -/
def pIngsC3 : List ProductIngredient :=
  [⟨101, 1, 2⟩, ⟨101, 2, 100⟩, ⟨102, 1, 3⟩]

/-- Concrete cart for the C3 witness: two products sharing ingredient 1. -/
def cartC3 : List CartItem := [⟨⟨101, 5⟩, 2⟩, ⟨⟨102, 7⟩, 1⟩]

/-- Zero-stock ingredient for the C4 counterexample. -/
def itemC4 : InventoryItem := ⟨1, 0, 5, .quantity⟩

/-- Product whose only ingredient is out of stock, for C4. -/
def prodC4 : FinishedProduct := ⟨101, 5⟩

/-- Recipe of `prodC4`. -/
def pIngsC4 : List ProductIngredient := [⟨101, 1, 1⟩]

/-- Cart holding the unavailable product, for C4. -/
def cartC4 : List CartItem := [⟨prodC4, 1⟩]

/-- Store for the C4 counterexample. -/
def dbC4 : DB := ⟨[itemC4], [], 0⟩

/-- Persisted transaction numbers for the C5 witness: one from period
`24-04` and two from period `24-05` (sequences 3 and 7). -/
def existingC5 : List (List Char) :=
  [['2', '4', '-', '0', '4', '-', '0', '0', '0', '0', '2'],
   ['2', '4', '-', '0', '5', '-', '0', '0', '0', '0', '3'],
   ['2', '4', '-', '0', '5', '-', '0', '0', '0', '0', '7']]

/-- Store for the C7 witness. -/
def dbW7 : DB := ⟨[⟨3, 2, 1, .quantity⟩], [], 0⟩

/-- First-registered sale for the C7 witness (superseded). -/
def saleW7a : Sale :=
  { id := 0, transaction_id := 1, transaction_number := [], product_id := 50
    qty := 1, cost := 0, selling_price := 0, total := 0
    payment_method := none, customer_type := none, dine_in_takeout := none
    customer_payment := 0, cancelled := false, cancelled_at := none }

/-- Superseding sale for the C7 witness. -/
def saleW7b : Sale :=
  { id := 1, transaction_id := 2, transaction_number := [], product_id := 51
    qty := 1, cost := 0, selling_price := 0, total := 0
    payment_method := none, customer_type := none, dine_in_takeout := none
    customer_payment := 0, cancelled := false, cancelled_at := none }

/-- Initial world for the C8 witness. -/
def wC8 : World := ⟨⟨[⟨1, 3, 1, .quantity⟩], [], 0⟩, []⟩

/-- C9: `toStorage(toDisplay(x, k), k) = x` — the storage→display and
display→storage conversions are exact inverses for every unit kind, for
both textual copies of the display conversion in the source. -/
theorem storage_display_roundtrip (item : InventoryItem) :
    getStorageQuantity (getInventoryInIngredientUnit item) item.unit_type
        = item.qty ∧
    getStorageQuantity (getDisplayQuantity item) item.unit_type = item.qty := by
  constructor <;>
    · cases h : item.unit_type <;>
        simp [getStorageQuantity, getInventoryInIngredientUnit,
          getDisplayQuantity, h]

/-- Folding addition of a function over a list from an accumulator is the
accumulator plus the sum of the mapped list. -/
theorem foldl_add_map_sum {α : Type} (f : α → ℚ) :
    ∀ (l : List α) (a : ℚ),
      l.foldl (fun acc x => acc + f x) a = a + (l.map f).sum
  | [], a => by simp
  | x :: l, a => by
    simp only [List.foldl_cons, List.map_cons, List.sum_cons]
    rw [foldl_add_map_sum f l (a + f x)]
    ring

/-- C1 (amended): the derived product cost is the sum over the product's
recipe lines of the item's stored cost times the display-unit line
quantity, with no unit conversion (a missing item contributes 0). -/
theorem calculateProductCost_line_sum (pIngs : List ProductIngredient)
    (items : List InventoryItem) (p : FinishedProduct) :
    calculateProductCost pIngs items p
      = ((ingredientsFor pIngs p.id).map (fun ing =>
          match items.find? (fun i => i.id == ing.item_id) with
          | some item => item.cost * ing.qty
          | none => 0)).sum := by
  unfold calculateProductCost
  exact (foldl_add_map_sum _ _ 0).trans (zero_add _)

/-- C1 (counterexample): for a 200 g recipe line of a weight ingredient
with stored cost 50, the source cost is `50 * 200 = 10000`, not the
specification's storage-converted `50 * 0.2 = 10`. -/
theorem calculateProductCost_ne_costPerSpec :
    calculateProductCost pIngsC1 itemsC1 prodC1 = 10000
    ∧ costPerSpec pIngsC1 itemsC1 prodC1 = 10
    ∧ calculateProductCost pIngsC1 itemsC1 prodC1
        ≠ costPerSpec pIngsC1 itemsC1 prodC1 := by
  refine ⟨?_, ?_, ?_⟩ <;>
    norm_num [calculateProductCost, costPerSpec, ingredientsFor, itemsC1,
      pIngsC1, prodC1, getStorageQuantity, List.find?]

/-- C4 (amended): the checkout guard is exactly non-empty cart, payment
method, customer type and seating mode selected, and payment covering the
cart total; a rejected checkout performs no persistence and leaves the
state untouched.  Product availability is not part of the guard. -/
theorem canCheckout_characterization (db : DB)
    (pIngs : List ProductIngredient) (cart : List CartItem)
    (pm ct : Option ℕ) (dit : Option DineMode) (pay : Option ℚ) (txid : ℕ)
    (period : List Char) (insertOk : Bool) :
    (canCheckout cart pm ct dit pay = true
      ↔ cart ≠ [] ∧ pm.isSome = true ∧ ct.isSome = true ∧ dit.isSome = true
        ∧ cartTotal cart ≤ paymentAmount pay)
    ∧ (canCheckout cart pm ct dit pay = false →
        handleCheckout db pIngs cart pm ct dit pay txid period insertOk
          = (db, none)) := by
  constructor
  · simp [canCheckout, List.isEmpty_iff, and_assoc]
  · intro h
    simp [handleCheckout, h]

/-- C4 (counterexample): a cart whose only product is unavailable per the
availability check still passes the checkout guard, and the commit path
persists its sale rows. -/
theorem checkout_skips_availability :
    isProductOutOfStock pIngsC4 dbC4.items prodC4 = true
    ∧ canCheckout cartC4 (some 1) (some 1) (some DineMode.dine_in)
        (some 100) = true
    ∧ (handleCheckout dbC4 pIngsC4 cartC4 (some 1) (some 1)
        (some DineMode.dine_in) (some 100) 7 periodC2 true).1.sales ≠ [] := by
  have h1 : isProductOutOfStock pIngsC4 dbC4.items prodC4 = true := by
    norm_num [isProductOutOfStock, ingredientsFor, pIngsC4, dbC4, prodC4,
      itemC4, getInventoryInIngredientUnit, List.find?]
  have h2 : canCheckout cartC4 (some 1) (some 1) (some DineMode.dine_in)
      (some 100) = true := by
    norm_num [canCheckout, cartTotal, cartC4, prodC4, paymentAmount]
  refine ⟨h1, h2, ?_⟩
  simp only [handleCheckout, h2, Bool.true_eq_false, if_false]
  simp [dbC4, cartC4, mkSaleRecords]

/-- C6: a failed batched sale-row write aborts the whole checkout — the
store, inventory quantities included, is returned unchanged and nothing
is registered. -/
theorem saleInsertFailure_preserves_state (db : DB)
    (pIngs : List ProductIngredient) (cart : List CartItem)
    (pm ct : Option ℕ) (dit : Option DineMode) (pay : Option ℚ) (txid : ℕ)
    (period : List Char) :
    handleCheckout db pIngs cart pm ct dit pay txid period false
      = (db, none) := by
  by_cases h : canCheckout cart pm ct dit pay = false <;>
    simp [handleCheckout, h]

/-- C10: the commit path is additionally gated on payment sufficiency:
a passing guard implies the parsed payment covers the cart total, and a
smaller — or absent, i.e. empty or unparsable, with a positive total —
payment rejects the checkout with no state change. -/
theorem payment_gates_checkout (db : DB) (pIngs : List ProductIngredient)
    (cart : List CartItem) (pm ct : Option ℕ) (dit : Option DineMode)
    (pay : Option ℚ) (txid : ℕ) (period : List Char) (insertOk : Bool) :
    (canCheckout cart pm ct dit pay = true →
      cartTotal cart ≤ paymentAmount pay)
    ∧ (paymentAmount pay < cartTotal cart →
        canCheckout cart pm ct dit pay = false
        ∧ handleCheckout db pIngs cart pm ct dit pay txid period insertOk
            = (db, none))
    ∧ (pay = none → 0 < cartTotal cart →
        canCheckout cart pm ct dit pay = false
        ∧ handleCheckout db pIngs cart pm ct dit pay txid period insertOk
            = (db, none)) := by
  have hkey : paymentAmount pay < cartTotal cart →
      canCheckout cart pm ct dit pay = false
      ∧ handleCheckout db pIngs cart pm ct dit pay txid period insertOk
          = (db, none) := by
    intro hlt
    have hfalse : canCheckout cart pm ct dit pay = false := by
      simp [canCheckout, not_le.mpr hlt]
    exact ⟨hfalse, by simp [handleCheckout, hfalse]⟩
  refine ⟨?_, hkey, ?_⟩
  · intro h
    by_contra hc
    exact absurd (hkey (not_le.mp hc)).1 (by simp [h])
  · intro hnone hpos
    apply hkey
    simp [paymentAmount, hnone, hpos]

/-- A sale row with a different id passes through the cancellation update
unchanged. -/
theorem mem_markCancelled_of_ne (sales : List Sale) (saleId : ℕ) (now : ℚ)
    (s : Sale) (hs : s ∈ sales) (h : s.id ≠ saleId) :
    s ∈ markCancelled sales saleId now := by
  have hbeq : (s.id == saleId) = false := beq_eq_false_iff_ne.mpr h
  have := List.mem_map_of_mem
    (fun x : Sale =>
      if x.id == saleId then { x with cancelled := true, cancelled_at := some now }
      else x) hs
  simpa [markCancelled, hbeq] using this

/-- The sale row with the cancelled id reappears with the cancellation
flag and timestamp set. -/
theorem mem_markCancelled_of_eq (sales : List Sale) (saleId : ℕ) (now : ℚ)
    (s : Sale) (hs : s ∈ sales) (h : s.id = saleId) :
    { s with cancelled := true, cancelled_at := some now }
      ∈ markCancelled sales saleId now := by
  have hbeq : (s.id == saleId) = true := beq_iff_eq.mpr h
  have := List.mem_map_of_mem
    (fun x : Sale =>
      if x.id == saleId then { x with cancelled := true, cancelled_at := some now }
      else x) hs
  simpa [markCancelled, hbeq] using this

/-- An inventory row with a different id passes through the restoration
unchanged. -/
theorem mem_restoreInventory_of_ne (items : List InventoryItem) (pid : ℕ)
    (q : ℚ) (i : InventoryItem) (hi : i ∈ items) (h : i.id ≠ pid) :
    i ∈ restoreInventory items pid q := by
  have hbeq : (i.id == pid) = false := beq_eq_false_iff_ne.mpr h
  have := List.mem_map_of_mem
    (fun x : InventoryItem => if x.id == pid then { x with qty := x.qty + q } else x)
    hi
  simpa [restoreInventory, hbeq] using this

/-- The inventory row with the restored id reappears with `q` added. -/
theorem mem_restoreInventory_of_eq (items : List InventoryItem) (pid : ℕ)
    (q : ℚ) (i : InventoryItem) (hi : i ∈ items) (h : i.id = pid) :
    { i with qty := i.qty + q } ∈ restoreInventory items pid q := by
  have hbeq : (i.id == pid) = true := beq_iff_eq.mpr h
  have := List.mem_map_of_mem
    (fun x : InventoryItem => if x.id == pid then { x with qty := x.qty + q } else x)
    hi
  simpa [restoreInventory, hbeq] using this

/-- C2 (amended): a cancellation inside the window succeeds, marks the
single registered sale row cancelled with a non-null timestamp, and adds
the sale's quantity to the inventory row whose id equals the sale's
product id; every other sale row and inventory row reappears unchanged,
and no rows are added or removed.  Other rows of the transaction are not
voided and no per-ingredient restoration happens. -/
theorem cancel_in_window_effect (db : DB) (recent : List RecentSale)
    (now : ℚ) (saleId : ℕ) (rs : RecentSale) (s : Sale) (i : InventoryItem)
    (hfind : recent.find? (fun r => r.sale.id == saleId) = some rs)
    (hwin : ¬ rs.expiresAt < now) (hs : s ∈ db.sales) (hi : i ∈ db.items) :
    (cancelSale db recent now saleId).2.2 = true
    ∧ (cancelSale db recent now saleId).1.sales.length = db.sales.length
    ∧ (cancelSale db recent now saleId).1.items.length = db.items.length
    ∧ (s.id ≠ saleId → s ∈ (cancelSale db recent now saleId).1.sales)
    ∧ (s.id = saleId →
        { s with cancelled := true, cancelled_at := some now }
          ∈ (cancelSale db recent now saleId).1.sales)
    ∧ (i.id ≠ rs.sale.product_id →
        i ∈ (cancelSale db recent now saleId).1.items)
    ∧ (i.id = rs.sale.product_id →
        { i with qty := i.qty + rs.sale.qty }
          ∈ (cancelSale db recent now saleId).1.items) := by
  have hres : cancelSale db recent now saleId
      = ({ db with
            sales := markCancelled db.sales saleId now
            items := restoreInventory db.items rs.sale.product_id rs.sale.qty },
         recent.filter (fun r => r.sale.id != saleId), true) := by
    simp only [cancelSale, hfind]
    rw [if_neg hwin]
  rw [hres]
  refine ⟨rfl, ?_, ?_, ?_, ?_, ?_, ?_⟩
  · simp [markCancelled]
  · simp [restoreInventory]
  · exact fun h => mem_markCancelled_of_ne db.sales saleId now s hs h
  · exact fun h => mem_markCancelled_of_eq db.sales saleId now s hs h
  · exact fun h =>
      mem_restoreInventory_of_ne db.items rs.sale.product_id rs.sale.qty i hi h
  · exact fun h =>
      mem_restoreInventory_of_eq db.items rs.sale.product_id rs.sale.qty i hi h

/-- C2 (amended, witness): concrete two-row transaction in which the
registered row 5 is cancelled, the unregistered row 6 survives unchanged,
and the inventory row 77 named by the sale's product id gets the sale
quantity back. -/
theorem cancel_in_window_effect_witness :
    (cancelSale dbW2 recentW2 10 5).2.2 = true
    ∧ (cancelSale dbW2 recentW2 10 5).1.sales.length = dbW2.sales.length
    ∧ (cancelSale dbW2 recentW2 10 5).1.items.length = dbW2.items.length
    ∧ (saleW2b.id ≠ 5 → saleW2b ∈ (cancelSale dbW2 recentW2 10 5).1.sales)
    ∧ (saleW2b.id = 5 →
        { saleW2b with cancelled := true, cancelled_at := some 10 }
          ∈ (cancelSale dbW2 recentW2 10 5).1.sales)
    ∧ ((⟨88, 6, 1, .quantity⟩ : InventoryItem).id
          ≠ (⟨saleW2, 30000⟩ : RecentSale).sale.product_id →
        (⟨88, 6, 1, .quantity⟩ : InventoryItem)
          ∈ (cancelSale dbW2 recentW2 10 5).1.items)
    ∧ ((⟨88, 6, 1, .quantity⟩ : InventoryItem).id
          = (⟨saleW2, 30000⟩ : RecentSale).sale.product_id →
        { (⟨88, 6, 1, .quantity⟩ : InventoryItem) with
            qty := (⟨88, 6, 1, .quantity⟩ : InventoryItem).qty
              + (⟨saleW2, 30000⟩ : RecentSale).sale.qty }
          ∈ (cancelSale dbW2 recentW2 10 5).1.items) :=
  cancel_in_window_effect dbW2 recentW2 10 5 ⟨saleW2, 30000⟩ saleW2b
    ⟨88, 6, 1, .quantity⟩ rfl (by decide) (by decide) (by decide)

/-- C7: a cancellation whose id matches no pending entry, or whose entry
has expired, reports failure and leaves the persisted state untouched;
and after a second registration replaces the slot, the first transaction
is uncancellable through the normal path — failure with no mutation —
even at an arbitrary (possibly still in-window) time. -/
theorem cancel_guard (db : DB) (recent : List RecentSale) (now : ℚ)
    (saleId : ℕ) (s1 s2 : Sale) (rl : List RecentSale) (now0 nowc : ℚ)
    (h : recent.find? (fun rs => rs.sale.id == saleId) = none
      ∨ ∃ rs, recent.find? (fun r => r.sale.id == saleId) = some rs
          ∧ rs.expiresAt < now)
    (hne : s1.id ≠ s2.id) :
    ((cancelSale db recent now saleId).1 = db
      ∧ (cancelSale db recent now saleId).2.2 = false)
    ∧ ((cancelSale db (addRecentSale rl s2 now0) nowc s1.id).1 = db
      ∧ (cancelSale db (addRecentSale rl s2 now0) nowc s1.id).2.2 = false) := by
  constructor
  · rcases h with h | ⟨rs, hfind, hexp⟩
    · simp [cancelSale, h]
    · simp [cancelSale, hfind, hexp]
  · have hb : (s2.id == s1.id) = false := beq_eq_false_iff_ne.mpr (Ne.symm hne)
    have hfind2 : (addRecentSale rl s2 now0).find?
        (fun r => r.sale.id == s1.id) = none := by
      simp [addRecentSale, List.find?, hb]
    simp [cancelSale, hfind2]

/-- C7 (witness): cancelling with an empty slot fails without mutation,
and after sale 1 supersedes sale 0 in the slot, cancelling sale 0 at an
in-window time also fails without mutation. -/
theorem cancel_guard_witness :
    (((cancelSale dbW7 [] 0 0).1 = dbW7
      ∧ (cancelSale dbW7 [] 0 0).2.2 = false)
     ∧ ((cancelSale dbW7 (addRecentSale [] saleW7b 0) 5 saleW7a.id).1 = dbW7
      ∧ (cancelSale dbW7 (addRecentSale [] saleW7b 0) 5 saleW7a.id).2.2
          = false)) :=
  cancel_guard dbW7 [] 0 0 saleW7a saleW7b [] 0 5 (Or.inl rfl) (by decide)

/-- C2 (counterexample): after checking out a two-product cart that
shares ingredient 1 (stock 10, total requirement 5) and cancelling the
registered sale row well inside the window, the cancellation reports
success, yet ingredient 1 stays at 5 instead of its pre-checkout 10, and
the transaction's second sale row is still uncancelled. -/
theorem cancel_not_full_restore :
    (cancelSale w1C2.db w1C2.recent 10 0).2.2 = true
    ∧ w2C2.db.items.map (fun i => i.qty) = [5]
    ∧ dbC2.items.map (fun i => i.qty) = [10]
    ∧ ∃ s ∈ w2C2.db.sales, s.transaction_id = 999 ∧ s.cancelled = false := by
  norm_num [w2C2, w1C2, checkoutWorld, cancelWorld, cancelSale, handleCheckout,
    canCheckout, cartTotal, paymentAmount, dbC2, cartC2, pIngsC2, periodC2,
    List.find?, mkSaleRecords, ingredientDeductions, ingredientsFor,
    addDeduction, applyAll, applyDeduction, getStorageQuantity,
    generateTransactionNumber, maxString?, addRecentSale, markCancelled,
    restoreInventory, calculateProductCost, List.foldl, List.filter,
    lookupD]

/-- One deduction-loop iteration keeps all stock quantities
non-negative. -/
theorem applyDeduction_nonneg (items : List InventoryItem) (k : ℕ) (v : ℚ)
    (h : ∀ i ∈ items, 0 ≤ i.qty) :
    ∀ i ∈ applyDeduction items k v, 0 ≤ i.qty := by
  intro i hi
  unfold applyDeduction at hi
  cases hf : items.find? (fun j => j.id == k) with
  | none => rw [hf] at hi; exact h i hi
  | some item =>
    rw [hf] at hi
    rcases List.mem_map.mp hi with ⟨x, hx, rfl⟩
    by_cases hxk : (x.id == k) = true
    · simp only [hxk, if_true]
      exact le_max_left 0 _
    · simp only [hxk, if_false]
      exact h x hx

/-- The whole deduction loop keeps all stock quantities non-negative. -/
theorem applyAll_nonneg :
    ∀ (l : List (ℕ × ℚ)) (items : List InventoryItem),
      (∀ i ∈ items, 0 ≤ i.qty) → ∀ i ∈ applyAll items l, 0 ≤ i.qty
  | [], items, h => h
  | kv :: l, items, h => by
    have h1 := applyDeduction_nonneg items kv.1 kv.2 h
    exact applyAll_nonneg l (applyDeduction items kv.1 kv.2) h1

/-- Every sale row produced for a checkout carries a non-negative
quantity (it is a cast cart quantity). -/
theorem mkSaleRecords_qty_nonneg (pIngs : List ProductIngredient)
    (items : List InventoryItem) (txid : ℕ) (txnum : List Char)
    (pm ct : Option ℕ) (dit : Option DineMode) (payEff : ℚ) :
    ∀ (n : ℕ) (cart : List CartItem),
      ∀ s ∈ mkSaleRecords pIngs items txid txnum pm ct dit payEff n cart,
        0 ≤ s.qty
  | _, [] => by simp [mkSaleRecords]
  | n, it :: rest => by
    intro s hs
    simp only [mkSaleRecords, List.mem_cons] at hs
    rcases hs with rfl | hs
    · exact Nat.cast_nonneg it.quantity
    · exact mkSaleRecords_qty_nonneg pIngs items txid txnum pm ct dit payEff
        (n + 1) rest s hs

/-- Every operational step preserves the non-negativity invariant. -/
theorem step_preserves_worldInv (w w' : World) (hstep : Step w w')
    (hinv : WorldInv w) : WorldInv w' := by
  obtain ⟨hitems, hrecent⟩ := hinv
  cases hstep with
  | checkout pIngs cart pm ct dit pay txid period insertOk now =>
    by_cases hcan : canCheckout cart pm ct dit pay = false
    · constructor <;> simp_all [checkoutWorld, handleCheckout, hcan]
    · cases insertOk with
      | false =>
        constructor <;> simp_all [checkoutWorld, handleCheckout, hcan]
      | true =>
        have hres : handleCheckout w.db pIngs cart pm ct dit pay txid period true
            = ({ items := applyAll w.db.items (ingredientDeductions cart pIngs)
                 sales := w.db.sales ++
                   mkSaleRecords pIngs w.db.items txid
                     (generateTransactionNumber
                       (w.db.sales.map (fun s => s.transaction_number)) period)
                     pm ct dit (paymentAmount pay) w.db.nextSaleId cart
                 nextSaleId := w.db.nextSaleId + cart.length },
               (mkSaleRecords pIngs w.db.items txid
                 (generateTransactionNumber
                   (w.db.sales.map (fun s => s.transaction_number)) period)
                 pm ct dit (paymentAmount pay) w.db.nextSaleId cart).head?) := by
          simp [handleCheckout, hcan]
        constructor
        · intro i hi
          simp only [checkoutWorld, hres] at hi
          exact applyAll_nonneg _ _ hitems i hi
        · intro rs hrs
          simp only [checkoutWorld, hres] at hrs
          cases hh : (mkSaleRecords pIngs w.db.items txid
              (generateTransactionNumber
                (w.db.sales.map (fun s => s.transaction_number)) period)
              pm ct dit (paymentAmount pay) w.db.nextSaleId cart).head? with
          | none => rw [hh] at hrs; exact hrecent rs hrs
          | some s =>
            rw [hh] at hrs
            simp only [addRecentSale, List.mem_singleton] at hrs
            subst hrs
            have hmem : s ∈ mkSaleRecords pIngs w.db.items txid
                (generateTransactionNumber
                  (w.db.sales.map (fun s => s.transaction_number)) period)
                pm ct dit (paymentAmount pay) w.db.nextSaleId cart := by
              cases hc : mkSaleRecords pIngs w.db.items txid
                  (generateTransactionNumber
                    (w.db.sales.map (fun s => s.transaction_number)) period)
                  pm ct dit (paymentAmount pay) w.db.nextSaleId cart with
              | nil => rw [hc] at hh; cases hh
              | cons a t =>
                rw [hc] at hh
                simp only [List.head?_cons, Option.some.injEq] at hh
                subst hh
                exact hc ▸ List.mem_cons_self a t
            exact mkSaleRecords_qty_nonneg pIngs w.db.items txid _ pm ct dit
              (paymentAmount pay) w.db.nextSaleId cart s hmem
  | cancel saleId now =>
    cases hfind : w.recent.find? (fun rs => rs.sale.id == saleId) with
    | none =>
      constructor
      · intro i hi
        simp only [cancelWorld, cancelSale, hfind] at hi
        exact hitems i hi
      · intro r hr
        simp only [cancelWorld, cancelSale, hfind] at hr
        exact hrecent r hr
    | some rs =>
      have hrsmem : rs ∈ w.recent := List.mem_of_find?_eq_some hfind
      have hq : 0 ≤ rs.sale.qty := hrecent rs hrsmem
      by_cases hexp : rs.expiresAt < now
      · constructor
        · intro i hi
          simp only [cancelWorld, cancelSale, hfind, if_pos hexp] at hi
          exact hitems i hi
        · intro r hr
          simp only [cancelWorld, cancelSale, hfind, if_pos hexp] at hr
          exact hrecent r (List.mem_of_mem_filter hr)
      · constructor
        · intro i hi
          simp only [cancelWorld, cancelSale, hfind, if_neg hexp] at hi
          rcases List.mem_map.mp hi with ⟨x, hx, rfl⟩
          by_cases hxk : (x.id == rs.sale.product_id) = true
          · simp only [hxk, if_true]
            exact add_nonneg (hitems x hx) hq
          · simp only [hxk, if_false]
            exact hitems x hx
        · intro r hr
          simp only [cancelWorld, cancelSale, hfind, if_neg hexp] at hr
          exact hrecent r (List.mem_of_mem_filter hr)
  | expire saleId =>
    constructor
    · intro i hi
      exact hitems i hi
    · intro r hr
      simp only [expireWorld] at hr
      exact hrecent r (List.mem_of_mem_filter hr)

/-- The invariant holds in every reachable state. -/
theorem reachable_worldInv (w0 w : World)
    (hreach : Relation.ReflTransGen Step w0 w) (hinv : WorldInv w0) :
    WorldInv w := by
  induction hreach with
  | refl => exact hinv
  | tail _ hstep ih => exact step_preserves_worldInv _ _ hstep ih

/-- C8: from any state satisfying the non-negativity invariant, every
state reachable through checkouts, cancellations and window expiries has
only non-negative stock quantities — checkout deductions clamp at zero
and cancellation restorations only add. -/
theorem stock_nonneg_reachable (w0 w : World) (i : InventoryItem)
    (hreach : Relation.ReflTransGen Step w0 w) (hinv : WorldInv w0)
    (hi : i ∈ w.db.items) : 0 ≤ i.qty :=
  (reachable_worldInv w0 w hreach hinv).1 i hi

/-- C8 (witness): the invariant holds of the concrete initial world and
its stock row is non-negative. -/
theorem stock_nonneg_reachable_witness :
    WorldInv wC8 ∧ 0 ≤ (⟨1, 3, 1, UnitType.quantity⟩ : InventoryItem).qty :=
  ⟨by norm_num [WorldInv, wC8],
   stock_nonneg_reachable wC8 wC8 ⟨1, 3, 1, UnitType.quantity⟩
     Relation.ReflTransGen.refl (by norm_num [WorldInv, wC8]) (by simp [wC8])⟩

/-- Adding to the deduction record changes exactly the addressed key's
value, by exactly the added amount. -/
theorem lookupD_addDeduction (m : List (ℕ × ℚ)) (k' k : ℕ) (v : ℚ) :
    lookupD (addDeduction m k' v) k
      = lookupD m k + if k' = k then v else 0 := by
  unfold addDeduction lookupD
  by_cases hany : m.any (fun p => p.1 == k') = true
  · rw [if_pos hany]
    rw [List.find?_map]
    have hpred : ((fun p : ℕ × ℚ => p.1 == k)
        ∘ fun p : ℕ × ℚ => if p.1 == k' then (p.1, p.2 + v) else p)
        = fun p : ℕ × ℚ => p.1 == k := by
      funext p
      by_cases hp : p.1 = k' <;> simp [hp]
    rw [hpred]
    cases hfind : m.find? (fun p => p.1 == k) with
    | none =>
      have hkk : k' ≠ k := by
        rintro rfl
        rcases List.any_eq_true.mp hany with ⟨p, hp, hpk⟩
        exact (List.find?_eq_none.mp hfind p hp) hpk
      simp [hkk]
    | some p =>
      have hp1 : p.1 = k := by simpa using List.find?_some hfind
      by_cases hkk : k' = k
      · subst hkk
        simp [hp1]
      · have hne : p.1 ≠ k' := by
          rw [hp1]
          exact fun h => hkk h.symm
        simp [hne, hkk]
  · rw [if_neg hany]
    rw [List.find?_append]
    cases hfind : m.find? (fun p => p.1 == k) with
    | some p =>
      have hkk : k' ≠ k := by
        rintro rfl
        have hp1 : p.1 = k' := by simpa using List.find?_some hfind
        exact hany (List.any_eq_true.mpr
          ⟨p, List.mem_of_find?_eq_some hfind, beq_iff_eq.mpr hp1⟩)
      simp [hfind, hkk, Option.or]
    | none =>
      by_cases hkk : k' = k
      · subst hkk
        simp [hfind, List.find?, Option.or]
      · have hb : (k' == k) = false := beq_eq_false_iff_ne.mpr hkk
        simp [hfind, List.find?, hb, hkk, Option.or]

/-- Effect on the record of folding one cart line's recipe lines. -/
theorem lookupD_foldl_ings (it : CartItem) :
    ∀ (ings : List ProductIngredient) (m : List (ℕ × ℚ)) (k : ℕ),
      lookupD (ings.foldl
          (fun m ing => addDeduction m ing.item_id (ing.qty * it.quantity)) m) k
        = lookupD m k
          + ((ings.filter (fun ing => ing.item_id == k)).map
              (fun ing => ing.qty * (it.quantity : ℚ))).sum
  | [], m, k => by simp
  | ing :: rest, m, k => by
    simp only [List.foldl_cons]
    rw [lookupD_foldl_ings it rest _ k, lookupD_addDeduction]
    by_cases h : ing.item_id = k
    · have hb : (ing.item_id == k) = true := beq_iff_eq.mpr h
      simp only [List.filter_cons, hb, if_true, List.map_cons, List.sum_cons,
        if_pos h]
      ring
    · have hb : (ing.item_id == k) = false := beq_eq_false_iff_ne.mpr h
      simp only [List.filter_cons, hb, Bool.false_eq_true, if_false, if_neg h,
        add_zero]

/-- Effect on the record of folding the whole cart, from any
accumulator. -/
theorem lookupD_foldl_cart (pIngs : List ProductIngredient) :
    ∀ (cart : List CartItem) (m : List (ℕ × ℚ)) (k : ℕ),
      lookupD (cart.foldl
          (fun m it =>
            (ingredientsFor pIngs it.product.id).foldl
              (fun m ing => addDeduction m ing.item_id (ing.qty * it.quantity))
              m)
          m) k
        = lookupD m k + totalDisplayReq cart pIngs k
  | [], m, k => by simp [totalDisplayReq]
  | it :: rest, m, k => by
    simp only [List.foldl_cons]
    rw [lookupD_foldl_cart pIngs rest _ k, lookupD_foldl_ings]
    simp only [totalDisplayReq, List.map_cons, List.sum_cons]
    ring

/-- The deduction record's value at a key is the total display-unit
requirement of that inventory item across the whole cart. -/
theorem lookupD_ingredientDeductions (cart : List CartItem)
    (pIngs : List ProductIngredient) (k : ℕ) :
    lookupD (ingredientDeductions cart pIngs) k
      = totalDisplayReq cart pIngs k := by
  have h := lookupD_foldl_cart pIngs cart [] k
  simpa [ingredientDeductions, lookupD] using h

/-- Keys of the record after one addition. -/
theorem addDeduction_keys (m : List (ℕ × ℚ)) (k' : ℕ) (v : ℚ) :
    (addDeduction m k' v).map Prod.fst
      = if m.any (fun p => p.1 == k') then m.map Prod.fst
        else m.map Prod.fst ++ [k'] := by
  unfold addDeduction
  by_cases h : m.any (fun p => p.1 == k') = true
  · rw [if_pos h, if_pos h, List.map_map]
    apply List.map_congr_left
    intro p _
    by_cases hp : p.1 = k' <;> simp [hp]
  · rw [if_neg h, if_neg h, List.map_append]
    rfl

/-- Adding to the record keeps its keys distinct. -/
theorem addDeduction_keys_nodup (m : List (ℕ × ℚ)) (k' : ℕ) (v : ℚ)
    (h : (m.map Prod.fst).Nodup) :
    ((addDeduction m k' v).map Prod.fst).Nodup := by
  rw [addDeduction_keys]
  by_cases hany : m.any (fun p => p.1 == k') = true
  · rw [if_pos hany]; exact h
  · rw [if_neg hany]
    have hk : k' ∉ m.map Prod.fst := by
      intro hmem
      rcases List.mem_map.mp hmem with ⟨p, hp, rfl⟩
      exact hany (List.any_eq_true.mpr ⟨p, hp, beq_self_eq_true _⟩)
    simp [List.nodup_append, h, hk]

/-- Folding one cart line keeps record keys distinct. -/
theorem foldl_ings_keys_nodup (it : CartItem) :
    ∀ (ings : List ProductIngredient) (m : List (ℕ × ℚ)),
      (m.map Prod.fst).Nodup →
      ((ings.foldl
          (fun m ing => addDeduction m ing.item_id (ing.qty * it.quantity)) m
        ).map Prod.fst).Nodup
  | [], _, h => h
  | _ :: rest, _, h =>
    foldl_ings_keys_nodup it rest _ (addDeduction_keys_nodup _ _ _ h)

/-- The whole deduction record has distinct keys. -/
theorem ingredientDeductions_keys_nodup (cart : List CartItem)
    (pIngs : List ProductIngredient) :
    ((ingredientDeductions cart pIngs).map Prod.fst).Nodup := by
  suffices h : ∀ (c : List CartItem) (m : List (ℕ × ℚ)),
      (m.map Prod.fst).Nodup →
      ((c.foldl
          (fun m it =>
            (ingredientsFor pIngs it.product.id).foldl
              (fun m ing => addDeduction m ing.item_id (ing.qty * it.quantity))
              m)
          m).map Prod.fst).Nodup by
    exact h cart [] (by simp)
  intro c
  induction c with
  | nil => exact fun m h => h
  | cons it rest ih =>
    intro m h
    exact ih _ (foldl_ings_keys_nodup it _ m h)

/-- The deduction loop never changes the id column. -/
theorem applyDeduction_ids (items : List InventoryItem) (k : ℕ) (v : ℚ) :
    (applyDeduction items k v).map (fun i => i.id)
      = items.map (fun i => i.id) := by
  unfold applyDeduction
  cases hf : items.find? (fun i => i.id == k) with
  | none => rfl
  | some item =>
    rw [List.map_map]
    apply List.map_congr_left
    intro i _
    by_cases h : i.id = k <;> simp [h]

/-- With distinct record keys and distinct item ids, the whole deduction
loop acts on each row independently, as `dedTransform` of the record. -/
theorem applyAll_eq_map :
    ∀ (l : List (ℕ × ℚ)) (items : List InventoryItem),
      (l.map Prod.fst).Nodup → (items.map (fun i => i.id)).Nodup →
      applyAll items l = items.map (dedTransform l)
  | [], items, _, _ => by
    have hid : ∀ i : InventoryItem, dedTransform [] i = i := fun i => rfl
    have h1 : items.map (dedTransform []) = items.map (fun i => i) :=
      List.map_congr_left (fun i _ => hid i)
    show items = items.map (dedTransform [])
    rw [h1]
    simp
  | kv :: rest, items, hl, hids => by
    have hlc : (kv.1 :: rest.map Prod.fst).Nodup := by simpa using hl
    have hkey : kv.1 ∉ rest.map Prod.fst := (List.nodup_cons.mp hlc).1
    have hlr : (rest.map Prod.fst).Nodup := (List.nodup_cons.mp hlc).2
    have hids' : ((applyDeduction items kv.1 kv.2).map (fun i => i.id)).Nodup := by
      rw [applyDeduction_ids]; exact hids
    have hstep : applyAll items (kv :: rest)
        = applyAll (applyDeduction items kv.1 kv.2) rest := rfl
    rw [hstep, applyAll_eq_map rest _ hlr hids']
    have hrest_none : rest.find? (fun p => p.1 == kv.1) = none := by
      rw [List.find?_eq_none]
      intro p hp hpj
      apply hkey
      have hpk : p.1 = kv.1 := by simpa using hpj
      rw [← hpk]
      exact List.mem_map_of_mem Prod.fst hp
    unfold applyDeduction
    cases hf : items.find? (fun i => i.id == kv.1) with
    | none =>
      have hnone : ∀ i ∈ items, i.id ≠ kv.1 := by
        intro i hi h
        exact (List.find?_eq_none.mp hf i hi) (beq_iff_eq.mpr h)
      apply List.map_congr_left
      intro i hi
      unfold dedTransform
      have hb : (kv.1 == i.id) = false :=
        beq_eq_false_iff_ne.mpr (fun h => hnone i hi h.symm)
      simp [List.find?, hb]
    | some item0 =>
      have hmem0 : item0 ∈ items := List.mem_of_find?_eq_some hf
      have hid0 : item0.id = kv.1 := by simpa using List.find?_some hf
      rw [List.map_map]
      apply List.map_congr_left
      intro i hi
      by_cases hik : i.id = kv.1
      · have heq : item0 = i :=
          List.inj_on_of_nodup_map hids hmem0 hi (by rw [hid0, hik])
        subst heq
        simp only [Function.comp_apply]
        have hbt : (item0.id == kv.1) = true := beq_iff_eq.mpr hik
        rw [if_pos hbt]
        unfold dedTransform
        have hAid : ({ item0 with
            qty := max 0 (item0.qty - getStorageQuantity kv.2 item0.unit_type)
            } : InventoryItem).id = kv.1 := hik
        rw [hAid, hrest_none]
        have h2 : (kv.1 == item0.id) = true := beq_iff_eq.mpr hik.symm
        simp [List.find?, h2]
      · simp only [Function.comp_apply]
        have hbf : ¬ ((i.id == kv.1) = true) := by simp [hik]
        rw [if_neg hbf]
        unfold dedTransform
        have hb : (kv.1 == i.id) = false :=
          beq_eq_false_iff_ne.mpr (fun h => hik h.symm)
        simp [List.find?, hb]

/-- A key occurs in the record exactly when some cart line's recipe
references that inventory item. -/
theorem mem_keys_ingredientDeductions (cart : List CartItem)
    (pIngs : List ProductIngredient) (k : ℕ) :
    k ∈ (ingredientDeductions cart pIngs).map Prod.fst
      ↔ ∃ it ∈ cart, ∃ ing ∈ ingredientsFor pIngs it.product.id,
          ing.item_id = k := by
  have hadd : ∀ (m : List (ℕ × ℚ)) (k' : ℕ) (v : ℚ),
      k ∈ (addDeduction m k' v).map Prod.fst
        ↔ k ∈ m.map Prod.fst ∨ k = k' := by
    intro m k' v
    rw [addDeduction_keys]
    by_cases hany : m.any (fun p => p.1 == k') = true
    · rw [if_pos hany]
      constructor
      · exact Or.inl
      · rintro (h | rfl)
        · exact h
        · rcases List.any_eq_true.mp hany with ⟨p, hp, hpk⟩
          have : p.1 = k := by simpa using hpk
          rw [← this]
          exact List.mem_map_of_mem Prod.fst hp
    · rw [if_neg hany, List.mem_append]
      simp
  have hings : ∀ (it : CartItem) (ings : List ProductIngredient)
      (m : List (ℕ × ℚ)),
      k ∈ ((ings.foldl
          (fun m ing => addDeduction m ing.item_id (ing.qty * it.quantity)) m
        ).map Prod.fst)
        ↔ k ∈ m.map Prod.fst ∨ ∃ ing ∈ ings, ing.item_id = k := by
    intro it ings
    induction ings with
    | nil => simp
    | cons ing rest ih =>
      intro m
      simp only [List.foldl_cons]
      rw [ih, hadd]
      constructor
      · rintro ((h | rfl) | ⟨j, hj, rfl⟩)
        · exact Or.inl h
        · exact Or.inr ⟨ing, List.mem_cons_self _ _, rfl⟩
        · exact Or.inr ⟨j, List.mem_cons_of_mem _ hj, rfl⟩
      · rintro (h | ⟨j, hj, rfl⟩)
        · exact Or.inl (Or.inl h)
        · rcases List.mem_cons.mp hj with rfl | hj
          · exact Or.inl (Or.inr rfl)
          · exact Or.inr ⟨j, hj, rfl⟩
  have hcart : ∀ (c : List CartItem) (m : List (ℕ × ℚ)),
      k ∈ ((c.foldl
          (fun m it =>
            (ingredientsFor pIngs it.product.id).foldl
              (fun m ing => addDeduction m ing.item_id (ing.qty * it.quantity))
              m)
          m).map Prod.fst)
        ↔ k ∈ m.map Prod.fst
          ∨ ∃ it ∈ c, ∃ ing ∈ ingredientsFor pIngs it.product.id,
              ing.item_id = k := by
    intro c
    induction c with
    | nil => simp
    | cons it rest ih =>
      intro m
      simp only [List.foldl_cons]
      rw [ih, hings]
      constructor
      · rintro ((h | ⟨j, hj, rfl⟩) | ⟨x, hx, j, hj, rfl⟩)
        · exact Or.inl h
        · exact Or.inr ⟨it, List.mem_cons_self _ _, j, hj, rfl⟩
        · exact Or.inr ⟨x, List.mem_cons_of_mem _ hx, j, hj, rfl⟩
      · rintro (h | ⟨x, hx, j, hj, rfl⟩)
        · exact Or.inl (Or.inl h)
        · rcases List.mem_cons.mp hx with rfl | hx
          · exact Or.inl (Or.inr ⟨j, hj, rfl⟩)
          · exact Or.inr ⟨x, hx, j, hj, rfl⟩
  have h := hcart cart []
  simpa [ingredientDeductions] using h

/-- Record lookup succeeds exactly on present keys. -/
theorem find?_isSome_iff_mem_keys (m : List (ℕ × ℚ)) (k : ℕ) :
    (m.find? (fun kv => kv.1 == k)).isSome = true ↔ k ∈ m.map Prod.fst := by
  rw [List.find?_isSome]
  constructor
  · rintro ⟨p, hp, hpk⟩
    have : p.1 = k := by simpa using hpk
    rw [← this]
    exact List.mem_map_of_mem Prod.fst hp
  · intro hmem
    rcases List.mem_map.mp hmem with ⟨p, hp, rfl⟩
    exact ⟨p, hp, beq_self_eq_true _⟩

/-- C3: with distinct inventory ids, a committed checkout applies to each
referenced item exactly one clamped deduction — the storage-converted
total display-unit requirement summed across all cart lines and recipe
lines referencing it — and leaves unreferenced items untouched; an item
is deducted exactly when some cart line's recipe references it. -/
theorem checkout_aggregated_deduction (db : DB)
    (pIngs : List ProductIngredient) (cart : List CartItem)
    (pm ct : Option ℕ) (dit : Option DineMode) (pay : Option ℚ) (txid : ℕ)
    (period : List Char) (k : ℕ)
    (hid : (db.items.map (fun i => i.id)).Nodup)
    (hcan : canCheckout cart pm ct dit pay = true) :
    (handleCheckout db pIngs cart pm ct dit pay txid period true).1.items
      = db.items.map (fun i =>
          if ((ingredientDeductions cart pIngs).find?
              (fun kv => kv.1 == i.id)).isSome then
            { i with qty := max 0 (i.qty
                - getStorageQuantity (totalDisplayReq cart pIngs i.id)
                    i.unit_type) }
          else i)
    ∧ (((ingredientDeductions cart pIngs).find?
          (fun kv => kv.1 == k)).isSome = true
        ↔ ∃ it ∈ cart, ∃ ing ∈ ingredientsFor pIngs it.product.id,
            ing.item_id = k) := by
  constructor
  · have hitems : (handleCheckout db pIngs cart pm ct dit pay txid period
        true).1.items
        = applyAll db.items (ingredientDeductions cart pIngs) := by
      simp [handleCheckout, hcan]
    rw [hitems,
      applyAll_eq_map _ _ (ingredientDeductions_keys_nodup cart pIngs) hid]
    apply List.map_congr_left
    intro i _
    unfold dedTransform
    cases hfind : (ingredientDeductions cart pIngs).find?
        (fun kv => kv.1 == i.id) with
    | none => simp [hfind]
    | some kv =>
      have hv : kv.2 = lookupD (ingredientDeductions cart pIngs) i.id := by
        simp [lookupD, hfind]
      rw [lookupD_ingredientDeductions] at hv
      simp [hfind, hv]
  · rw [find?_isSome_iff_mem_keys]
    exact mem_keys_ingredientDeductions cart pIngs k

/-- C3 (witness): concrete cart in which products 101 and 102 share
ingredient 1 — the committed checkout deducts the summed requirement
once per item. -/
theorem checkout_aggregated_deduction_witness :
    ((handleCheckout dbC3 pIngsC3 cartC3 (some 1) (some 1)
        (some DineMode.dine_in) (some 100) 7 periodC2 true).1.items
      = dbC3.items.map (fun i =>
          if ((ingredientDeductions cartC3 pIngsC3).find?
              (fun kv => kv.1 == i.id)).isSome then
            { i with qty := max 0 (i.qty
                - getStorageQuantity (totalDisplayReq cartC3 pIngsC3 i.id)
                    i.unit_type) }
          else i)
    ∧ (((ingredientDeductions cartC3 pIngsC3).find?
          (fun kv => kv.1 == 1)).isSome = true
        ↔ ∃ it ∈ cartC3, ∃ ing ∈ ingredientsFor pIngsC3 it.product.id,
            ing.item_id = 1)) :=
  checkout_aggregated_deduction dbC3 pIngsC3 cartC3 (some 1) (some 1)
    (some DineMode.dine_in) (some 100) 7 periodC2 1 (by decide)
    (by norm_num [canCheckout, cartTotal, cartC3, paymentAmount])

/-- Folding the `parseInt` accumulator from `a` over `l` scales `a` by
`10 ^ l.length` and adds the value of `l`. -/
theorem digitsVal_foldl :
    ∀ (l : List Char) (a : ℕ),
      l.foldl (fun a c => a * 10 + (c.toNat - 48)) a
        = a * 10 ^ l.length + digitsVal l
  | [], a => by simp [digitsVal]
  | c :: t, a => by
    have h1 := digitsVal_foldl t (a * 10 + (c.toNat - 48))
    have h2 := digitsVal_foldl t (0 * 10 + (c.toNat - 48))
    simp only [digitsVal, List.foldl_cons, List.length_cons] at h1 h2 ⊢
    rw [h1, h2]
    ring

/-- Head-digit decomposition of a digit string's value. -/
theorem digitsVal_cons (c : Char) (t : List Char) :
    digitsVal (c :: t) = (c.toNat - 48) * 10 ^ t.length + digitsVal t := by
  have h := digitsVal_foldl t (0 * 10 + (c.toNat - 48))
  simpa [digitsVal] using h

/-- The value of a digit string is below `10 ^ length`. -/
theorem digitsVal_lt :
    ∀ (l : List Char), IsDigits l → digitsVal l < 10 ^ l.length
  | [], _ => by simp [digitsVal]
  | c :: t, h => by
    have hc := h c (List.mem_cons_self _ _)
    have ht : IsDigits t := fun x hx => h x (List.mem_cons_of_mem _ hx)
    have hvt := digitsVal_lt t ht
    rw [digitsVal_cons, List.length_cons]
    have hd : c.toNat - 48 ≤ 9 := by omega
    have h3 : (c.toNat - 48) * 10 ^ t.length + digitsVal t
        < (c.toNat - 48) * 10 ^ t.length + 10 ^ t.length :=
      Nat.add_lt_add_left hvt _
    have h4 : (c.toNat - 48) * 10 ^ t.length + 10 ^ t.length
        = ((c.toNat - 48) + 1) * 10 ^ t.length := by ring
    have h5 : ((c.toNat - 48) + 1) * 10 ^ t.length ≤ 10 * 10 ^ t.length :=
      Nat.mul_le_mul_right _ (by omega)
    calc (c.toNat - 48) * 10 ^ t.length + digitsVal t
        < ((c.toNat - 48) + 1) * 10 ^ t.length := h4 ▸ h3
      _ ≤ 10 * 10 ^ t.length := h5
      _ = 10 ^ (t.length + 1) := by ring

/-- A digit string with a smaller leading digit has the smaller value,
when lengths agree. -/
theorem digitsVal_lt_of_head_lt (a b : Char) (as bs : List Char)
    (h1 : IsDigits (a :: as)) (h2 : IsDigits (b :: bs))
    (hlen : as.length = bs.length) (hab : a.toNat < b.toNat) :
    digitsVal (a :: as) < digitsVal (b :: bs) := by
  have ha := h1 a (List.mem_cons_self _ _)
  have hb := h2 b (List.mem_cons_self _ _)
  have has : IsDigits as := fun x hx => h1 x (List.mem_cons_of_mem _ hx)
  have hva := digitsVal_lt as has
  rw [digitsVal_cons, digitsVal_cons, hlen]
  have hd : a.toNat - 48 < b.toNat - 48 := by omega
  calc (a.toNat - 48) * 10 ^ bs.length + digitsVal as
      < (a.toNat - 48) * 10 ^ bs.length + 10 ^ bs.length := by
        exact Nat.add_lt_add_left (hlen ▸ hva) _
    _ = ((a.toNat - 48) + 1) * 10 ^ bs.length := by ring
    _ ≤ (b.toNat - 48) * 10 ^ bs.length := Nat.mul_le_mul_right _ (by omega)
    _ ≤ (b.toNat - 48) * 10 ^ bs.length + digitsVal bs := Nat.le_add_right _ _

/-- Lexicographic order on equal-length digit strings is value order. -/
theorem digits_lt_iff :
    ∀ (l1 l2 : List Char), IsDigits l1 → IsDigits l2 →
      l1.length = l2.length → (l1 < l2 ↔ digitsVal l1 < digitsVal l2)
  | [], [], _, _, _ => by
    constructor
    · intro h; exact absurd h (lt_irrefl _)
    · intro h; exact absurd h (lt_irrefl _)
  | [], b :: bs, _, _, hlen => by simp at hlen
  | a :: as, [], _, _, hlen => by simp at hlen
  | a :: as, b :: bs, h1, h2, hlen => by
    have hlen' : as.length = bs.length := by simpa using hlen
    have has : IsDigits as := fun x hx => h1 x (List.mem_cons_of_mem _ hx)
    have hbs : IsDigits bs := fun x hx => h2 x (List.mem_cons_of_mem _ hx)
    constructor
    · intro h
      cases h with
      | rel hr =>
        exact digitsVal_lt_of_head_lt a b as bs h1 h2 hlen' hr
      | cons h' =>
        rw [digitsVal_cons, digitsVal_cons, hlen']
        exact Nat.add_lt_add_left
          ((digits_lt_iff as bs has hbs hlen').mp h') _
    · intro hv
      rcases lt_trichotomy a b with hab | rfl | hba
      · exact List.Lex.rel hab
      · apply List.Lex.cons
        apply (digits_lt_iff as bs has hbs hlen').mpr
        rw [digitsVal_cons, digitsVal_cons, hlen'] at hv
        exact Nat.lt_of_add_lt_add_left hv
      · exfalso
        have := digitsVal_lt_of_head_lt b a bs as h2 h1 hlen'.symm hba
        omega

/-- A bounded code point is a decimal digit character. -/
theorem isDigit_of_bounds (c : Char) (h : 48 ≤ c.toNat ∧ c.toNat ≤ 57) :
    c.isDigit = true := by
  simp only [Char.isDigit, Bool.and_eq_true, decide_eq_true_eq]
  exact ⟨h.1, h.2⟩

/-- Code point of `Nat.digitChar` on an actual digit. -/
theorem digitChar_toNat (d : ℕ) (h : d < 10) :
    (Nat.digitChar d).toNat = 48 + d := by
  interval_cases d <;> rfl

/-- Appending one digit multiplies the value by ten and adds the digit. -/
theorem digitsVal_append_singleton (l : List Char) (c : Char) :
    digitsVal (l ++ [c]) = digitsVal l * 10 + (c.toNat - 48) := by
  unfold digitsVal
  rw [List.foldl_append]
  rfl

/-- The decimal rendering evaluates back to the rendered number. -/
theorem decDigitsCore_val :
    ∀ (fuel n : ℕ), n ≤ fuel → digitsVal (decDigitsCore fuel n) = n
  | 0, n, h => by
    have : n = 0 := Nat.le_zero.mp h
    subst this
    rfl
  | fuel + 1, n, h => by
    by_cases hn : n = 0
    · subst hn
      simp [decDigitsCore, digitsVal]
    · have hdiv : n / 10 ≤ fuel := by
        have := Nat.div_lt_self (Nat.pos_of_ne_zero hn) (by norm_num : 1 < 10)
        omega
      have ih := decDigitsCore_val fuel (n / 10) hdiv
      simp only [decDigitsCore, if_neg hn]
      rw [digitsVal_append_singleton, ih,
        digitChar_toNat (n % 10) (Nat.mod_lt _ (by norm_num))]
      omega

/-- The decimal rendering consists of digit characters. -/
theorem decDigitsCore_isDigits :
    ∀ (fuel n : ℕ), IsDigits (decDigitsCore fuel n)
  | 0, _ => by intro c hc; cases hc
  | fuel + 1, n => by
    by_cases hn : n = 0
    · subst hn; intro c hc; cases hc
    · simp only [decDigitsCore, if_neg hn]
      intro c hc
      rcases List.mem_append.mp hc with hc | hc
      · exact decDigitsCore_isDigits fuel (n / 10) c hc
      · have : c = Nat.digitChar (n % 10) := by simpa using hc
        subst this
        have hm : n % 10 < 10 := Nat.mod_lt _ (by norm_num)
        rw [digitChar_toNat _ hm]
        omega

/-- Length bound of the decimal rendering. -/
theorem decDigitsCore_length :
    ∀ (fuel n k : ℕ), n ≤ fuel → n < 10 ^ k →
      (decDigitsCore fuel n).length ≤ k
  | 0, n, k, h, _ => by
    have : n = 0 := Nat.le_zero.mp h
    subst this
    simp [decDigitsCore]
  | fuel + 1, n, k, h, hk => by
    by_cases hn : n = 0
    · subst hn; simp [decDigitsCore]
    · have hk1 : 1 ≤ k := by
        rcases Nat.eq_zero_or_pos k with rfl | hpos
        · simp at hk; omega
        · exact hpos
      have hdiv : n / 10 ≤ fuel := by
        have := Nat.div_lt_self (Nat.pos_of_ne_zero hn) (by norm_num : 1 < 10)
        omega
      have hdivk : n / 10 < 10 ^ (k - 1) := by
        rw [Nat.div_lt_iff_lt_mul (by norm_num : 0 < 10)]
        calc n < 10 ^ k := hk
          _ = 10 ^ (k - 1) * 10 := by
            rw [← pow_succ]
            congr 1
            omega
      have ih := decDigitsCore_length fuel (n / 10) (k - 1) hdiv hdivk
      simp only [decDigitsCore, if_neg hn, List.length_append,
        List.length_singleton]
      omega

/-- `jsNatToString` evaluates back to its argument. -/
theorem digitsVal_jsNatToString (n : ℕ) :
    digitsVal (jsNatToString n) = n := by
  unfold jsNatToString
  by_cases hn : n = 0
  · subst hn; rfl
  · rw [if_neg hn]
    exact decDigitsCore_val n n le_rfl

/-- `jsNatToString` consists of digit characters. -/
theorem jsNatToString_isDigits (n : ℕ) : IsDigits (jsNatToString n) := by
  unfold jsNatToString
  by_cases hn : n = 0
  · subst hn
    intro c hc
    have : c = '0' := by simpa using hc
    subst this
    constructor <;> decide
  · rw [if_neg hn]
    exact decDigitsCore_isDigits n n

/-- Length bound of `jsNatToString` below `10 ^ k` (for positive `k`). -/
theorem jsNatToString_length (n k : ℕ) (hk : 1 ≤ k) (h : n < 10 ^ k) :
    (jsNatToString n).length ≤ k := by
  unfold jsNatToString
  by_cases hn : n = 0
  · subst hn; simpa using hk
  · rw [if_neg hn]
    exact decDigitsCore_length n n k le_rfl h

/-- Padded sequences have exactly five characters below `10 ^ 5`. -/
theorem pad5_length (n : ℕ) (h : n < 100000) : (pad5 n).length = 5 := by
  have hlen : (jsNatToString n).length ≤ 5 :=
    jsNatToString_length n 5 (by norm_num) (by norm_num; omega)
  simp only [pad5, padStart, List.length_append, List.length_replicate]
  omega

/-- Padded sequences consist of digit characters. -/
theorem pad5_isDigits (n : ℕ) : IsDigits (pad5 n) := by
  intro c hc
  rcases List.mem_append.mp hc with hc | hc
  · have : c = '0' := List.eq_of_mem_replicate hc
    subst this
    constructor <;> decide
  · exact jsNatToString_isDigits n c hc

/-- Leading zero characters do not change a digit string's value. -/
theorem digitsVal_replicate_zero :
    ∀ (k : ℕ) (l : List Char),
      digitsVal (List.replicate k '0' ++ l) = digitsVal l
  | 0, _ => rfl
  | k + 1, l => digitsVal_replicate_zero k l

/-- The padded rendering evaluates back to the number. -/
theorem digitsVal_pad5 (n : ℕ) : digitsVal (pad5 n) = n := by
  unfold pad5 padStart
  rw [digitsVal_replicate_zero, digitsVal_jsNatToString]

/-- Lexicographic order on padded sequences is numeric order. -/
theorem pad5_lt_iff (a b : ℕ) (ha : a < 100000) (hb : b < 100000) :
    (pad5 a < pad5 b) ↔ a < b := by
  rw [digits_lt_iff (pad5 a) (pad5 b) (pad5_isDigits a) (pad5_isDigits b)
    (by rw [pad5_length a ha, pad5_length b hb]),
    digitsVal_pad5, digitsVal_pad5]

/-- `parseInt` recovers the sequence from its padded rendering. -/
theorem parseIntDec_pad5 (n : ℕ) (h : n < 100000) :
    parseIntDec (pad5 n) = some n := by
  have htake : (pad5 n).takeWhile (fun c => c.isDigit) = pad5 n :=
    List.takeWhile_eq_self_iff.mpr (fun c hc =>
      isDigit_of_bounds c (pad5_isDigits n c hc))
  have hne : (pad5 n).isEmpty = false := by
    have := pad5_length n h
    cases hpad : pad5 n with
    | nil => rw [hpad] at this; simp at this
    | cons a t => rfl
  simp only [parseIntDec, htake, hne, Bool.false_eq_true, if_false,
    digitsVal_pad5]

/-- `jsSplit` never returns the empty list of parts. -/
theorem jsSplit_ne_nil (sep : Char) :
    ∀ (l : List Char), jsSplit sep l ≠ []
  | [] => by simp [jsSplit]
  | c :: cs => by
    by_cases h : c = sep
    · simp [jsSplit, h]
    · simp only [jsSplit, if_neg h]
      cases hs : jsSplit sep cs with
      | nil => simp
      | cons a t => simp

/-- Splitting a separator-free string yields the single part. -/
theorem jsSplit_no_sep (sep : Char) :
    ∀ (l : List Char), sep ∉ l → jsSplit sep l = [l]
  | [], _ => rfl
  | c :: cs, h => by
    have hc : c ≠ sep := fun hh => h (hh ▸ List.mem_cons_self _ _)
    have hcs : sep ∉ cs := fun hh => h (List.mem_cons_of_mem _ hh)
    simp only [jsSplit, if_neg hc, jsSplit_no_sep sep cs hcs]

/-- Splitting peels one separator-free chunk off the front. -/
theorem jsSplit_append (sep : Char) :
    ∀ (a r : List Char), sep ∉ a →
      jsSplit sep (a ++ sep :: r) = a :: jsSplit sep r
  | [], r, _ => by simp [jsSplit]
  | c :: a, r, h => by
    have hc : c ≠ sep := fun hh => h (hh ▸ List.mem_cons_self _ _)
    have ha : sep ∉ a := fun hh => h (List.mem_cons_of_mem _ hh)
    have ih := jsSplit_append sep a r ha
    simp only [List.cons_append, jsSplit, if_neg hc]
    show (match jsSplit sep (a ++ sep :: r) with
      | [] => [[c]]
      | h :: t => (c :: h) :: t) = (c :: a) :: jsSplit sep r
    rw [ih]

/-- Lexicographic comparison ignores a common prefix. -/
theorem append_lt_append_iff (x : List Char) :
    ∀ (l l' : List Char), (x ++ l < x ++ l') ↔ l < l' := by
  induction x with
  | nil => intro l l'; exact Iff.rfl
  | cons c xs ih =>
    intro l l'
    constructor
    · intro h
      cases h with
      | rel hr => exact absurd hr (lt_irrefl c)
      | cons h' => exact (ih l l').mp h'
    · intro h
      exact List.Lex.cons ((ih l l').mpr h)

/-- Folding the descending-order read over strictly monotone images
computes the image of the numeric maximum. -/
theorem maxString?_foldl_mono (f : ℕ → List Char)
    (hmono : ∀ a b, a < 100000 → b < 100000 → ((f a < f b) ↔ a < b)) :
    ∀ (seqs : List ℕ) (a : ℕ), (∀ s ∈ seqs, s < 100000) → a < 100000 →
      (seqs.map f).foldl
          (fun acc t =>
            match acc with
            | none => some t
            | some m => if m < t then some t else some m)
          (some (f a))
        = some (f (seqs.foldl max a))
  | [], _, _, _ => rfl
  | s :: rest, a, hb, ha => by
    have hs : s < 100000 := hb s (List.mem_cons_self _ _)
    have hrest : ∀ x ∈ rest, x < 100000 :=
      fun x hx => hb x (List.mem_cons_of_mem _ hx)
    simp only [List.map_cons, List.foldl_cons]
    by_cases h : a < s
    · rw [if_pos ((hmono a s ha hs).mpr h)]
      have hmax : max a s = s := max_eq_right h.le
      rw [hmax]
      exact maxString?_foldl_mono f hmono rest s hrest hs
    · rw [if_neg (fun hc => h ((hmono a s ha hs).mp hc))]
      have hmax : max a s = a := max_eq_left (not_lt.mp h)
      rw [hmax]
      exact maxString?_foldl_mono f hmono rest a hrest ha

/-- A fold of `max` stays below any bound dominating base and elements. -/
theorem foldl_max_lt (bound : ℕ) :
    ∀ (seqs : List ℕ) (a : ℕ), (∀ s ∈ seqs, s < bound) → a < bound →
      seqs.foldl max a < bound
  | [], _, _, ha => ha
  | s :: rest, a, hb, ha => by
    have hs : s < bound := hb s (List.mem_cons_self _ _)
    have hrest : ∀ x ∈ rest, x < bound :=
      fun x hx => hb x (List.mem_cons_of_mem _ hx)
    exact foldl_max_lt bound rest (max a s) hrest (max_lt ha hs)

/-- C5: over persisted sale rows whose numbers for period `y-mm` are
exactly the well-formed five-digit renderings of sequences `seqs` (all
below 99999), the numberer returns the period, a dash, and the five-digit
zero-padded successor of the highest existing sequence — sequence 1 when
none exists (then `foldl max 0 [] + 1 = 1`).  The numberer is a pure
function of the persisted rows, so a second invocation with no new
committed Sale returns the same number. -/
theorem transaction_number_spec (existing : List (List Char))
    (y mm : List Char) (seqs : List ℕ)
    (hy : ('-') ∉ y) (hmm : ('-') ∉ mm)
    (hmatch : existing.filter
        (fun t => ((y ++ '-' :: mm) ++ ['-']).isPrefixOf t)
      = seqs.map (fun s => (y ++ '-' :: mm) ++ '-' :: pad5 s))
    (hbound : ∀ s ∈ seqs, s < 99999) :
    generateTransactionNumber existing (y ++ '-' :: mm)
      = (y ++ '-' :: mm) ++ '-' :: pad5 (seqs.foldl max 0 + 1)
    ∧ (pad5 (seqs.foldl max 0 + 1)).length = 5 := by
  have hM : seqs.foldl max 0 < 99999 :=
    foldl_max_lt 99999 seqs 0 hbound (by norm_num)
  refine ⟨?_, pad5_length _ (by omega)⟩
  simp only [generateTransactionNumber]
  rw [hmatch]
  cases seqs with
  | nil =>
    simp [maxString?]
  | cons s0 rest =>
    have hb100 : ∀ s ∈ s0 :: rest, s < 100000 := by
      intro s hs
      have := hbound s hs
      omega
    have hs0 : s0 < 100000 := hb100 s0 (List.mem_cons_self _ _)
    have hrest100 : ∀ s ∈ rest, s < 100000 :=
      fun s hs => hb100 s (List.mem_cons_of_mem _ hs)
    have hshape : ∀ n : ℕ,
        (y ++ '-' :: mm) ++ '-' :: pad5 n
          = ((y ++ '-' :: mm) ++ ['-']) ++ pad5 n := by
      intro n
      simp
    have hmono : ∀ a b, a < 100000 → b < 100000 →
        (((y ++ '-' :: mm) ++ '-' :: pad5 a)
          < ((y ++ '-' :: mm) ++ '-' :: pad5 b) ↔ a < b) := by
      intro a b ha hb
      rw [hshape a, hshape b, append_lt_append_iff]
      exact pad5_lt_iff a b ha hb
    have hfold := maxString?_foldl_mono
      (fun s => (y ++ '-' :: mm) ++ '-' :: pad5 s) hmono rest s0 hrest100 hs0
    have hmax : maxString? ((s0 :: rest).map
        (fun s => (y ++ '-' :: mm) ++ '-' :: pad5 s))
        = some ((y ++ '-' :: mm) ++ '-' :: pad5 ((s0 :: rest).foldl max 0)) := by
      simp only [maxString?, List.map_cons, List.foldl_cons]
      rw [max_eq_right (Nat.zero_le s0)]
      exact hfold
    rw [hmax]
    have hMlt : (s0 :: rest).foldl max 0 < 100000 :=
      foldl_max_lt 100000 (s0 :: rest) 0 hb100 (by norm_num)
    have hdash : ('-') ∉ pad5 ((s0 :: rest).foldl max 0) := by
      intro hmem
      have hb := pad5_isDigits _ _ hmem
      have h45 : ('-').toNat = 45 := rfl
      omega
    have hsplit : jsSplit '-' ((y ++ '-' :: mm) ++ '-'
        :: pad5 ((s0 :: rest).foldl max 0))
        = [y, mm, pad5 ((s0 :: rest).foldl max 0)] := by
      have hshape2 : (y ++ '-' :: mm) ++ '-' :: pad5 ((s0 :: rest).foldl max 0)
          = y ++ '-' :: (mm ++ '-' :: pad5 ((s0 :: rest).foldl max 0)) := by
        simp
      rw [hshape2, jsSplit_append '-' y _ hy, jsSplit_append '-' mm _ hmm,
        jsSplit_no_sep '-' _ hdash]
    have hgetD : ([y, mm, pad5 ((s0 :: rest).foldl max 0)]
        : List (List Char)).getD 2 []
        = pad5 ((s0 :: rest).foldl max 0) := rfl
    simp only [hsplit, hgetD, parseIntDec_pad5 _ hMlt, Option.getD_some]

/-- C5 (witness): with persisted numbers `24-04-00002`, `24-05-00003`
and `24-05-00007`, the next number for period `24-05` is `24-05-00008`. -/
theorem transaction_number_spec_witness :
    generateTransactionNumber existingC5 (['2', '4'] ++ '-' :: ['0', '5'])
      = (['2', '4'] ++ '-' :: ['0', '5'])
          ++ '-' :: pad5 (([3, 7].foldl max 0) + 1)
    ∧ (pad5 (([3, 7].foldl max 0) + 1)).length = 5 :=
  transaction_number_spec existingC5 ['2', '4'] ['0', '5'] [3, 7]
    (by decide) (by decide) (by decide) (by decide)
